import Mathlib

/-!
Shallow embedding of the rug-roulette Anchor program
(src/programs/rug-roulette/src/lib.rs).

Modelling conventions:
* Machine integers (u64 lamport balances, u64 pot/fee, u32 counters) are
  represented by `Nat` together with explicit bound checks.  The Anchor
  workspace builds on-chain programs with `overflow-checks = true` (the
  workspace manifest is not under src/; the spec likewise describes the
  accumulators as exact, non-wrapping counters), so an arithmetic overflow
  or underflow aborts the instruction.  Aborts are modelled as errors.
* Each instruction handler has type `World → Except (TxError × World) World`.
  On failure the error carries the world as it stood at the abort point;
  the surrounding runtime rolls the whole transaction back, so a failed
  instruction leaves the committed state unchanged, but keeping the
  abort-point world lets us prove that the handlers perform no mutation
  before their guards, which is what the no-side-effect claims are about.
* Pubkeys are abstracted to `Nat`.  The world holds a single game, its
  vault, a balance map for player system accounts, and the list of
  player-entry PDAs (one per player; Anchor's `init` constraint rejects a
  second entry for the same player, modelled by the `accountExists` error).
* The system-program transfer used by enter_game is external code, modelled
  from the spec (section 6): debit `from`, credit `to`, fail with
  InsufficientFunds when the source balance cannot cover the amount.
* `Clock::get()` is an environment input: the slot (u64) and the unix
  timestamp (i64, modelled as `Int`) are passed as parameters.
-/

namespace RugRoulette

/-- NUM_TOKENS from the source: players pick one of six tokens. -/
def NUM_TOKENS : Nat := 6

def U64_MOD : Nat := 2 ^ 64

def U32_MOD : Nat := 2 ^ 32

def U64_MAX : Nat := U64_MOD - 1

def U32_MAX : Nat := U32_MOD - 1

/-- GameStatus from the source. -/
inductive GameStatus where
  | Open
  | Rugged
  | Closed
  deriving DecidableEq

/-- RugRouletteError from the source (lines 241-259): this is the complete
program-defined error taxonomy. -/
inductive RugRouletteError where
  | InvalidTokenIndex
  | GameNotOpen
  | GameNotRugged
  | NoPlayers
  | NoSurvivor
  | NotASurvivor
  | AlreadyClaimed
  | NoSurvivors
  deriving DecidableEq

/-- Ways an instruction can fail: a program-defined error, a runtime /
framework failure (account constraints, system-program transfer), or a
panic (checked arithmetic overflow or out-of-bounds array access), which
aborts the transaction. -/
inductive TxError where
  | program : RugRouletteError → TxError
  | insufficientFunds : TxError
  | accountExists : TxError
  | accountMissing : TxError
  | notAuthority : TxError
  | panicOverflow : TxError
  | panicIndex : TxError
  deriving DecidableEq

/-- PlayerEntry from the source.  The `game` back-reference and the PDA
bump are constant wiring in this single-game world and are omitted. -/
structure Entry where
  player : Nat
  token_index : Nat
  claimed : Bool
  deriving DecidableEq

/-- Game account from the source.  token_counts is the [u32; 6] array
(length 6 is an invariant; reads model Rust's panic on an out-of-bounds
index).  The PDA bump is omitted. -/
structure Game where
  authority : Nat
  entry_fee : Nat
  total_pot : Nat
  player_count : Nat
  status : GameStatus
  survivor_index : Option Nat
  token_counts : List Nat
  deriving DecidableEq

/-- The accounts an instruction of this program can touch: the game
account, the lamport balance of the game vault PDA, the lamport balances
of player system accounts, and the player-entry PDAs. -/
structure World where
  game : Game
  vaultBalance : Nat
  playerBalance : Nat → Nat
  entries : List Entry

/-- Result of one instruction: the new world, or an error paired with the
world at the abort point (which the runtime then rolls back). -/
abbrev TxM := Except (TxError × World) World

/-- The error of a failed instruction, if any. -/
def errOf : TxM → Option TxError
  | .ok _ => none
  | .error (e, _) => some e

/-- initialize_game: fresh game with zeroed accumulators, status Open,
no survivor; the vault PDA starts empty and there are no entries. -/
def initGame (authority entry_fee : Nat) (balances : Nat → Nat) : World :=
  { game :=
      { authority := authority
        entry_fee := entry_fee
        total_pot := 0
        player_count := 0
        status := GameStatus.Open
        survivor_index := none
        token_counts := List.replicate NUM_TOKENS 0 }
    vaultBalance := 0
    playerBalance := balances
    entries := [] }

/-- Look up the player-entry PDA for a player (at most one exists). -/
def findEntry (w : World) (player : Nat) : Option Entry :=
  w.entries.find? (fun e => e.player == player)

/-- enter_game.  Anchor's init constraint on the entry PDA fails first if
the player already has an entry; then the two require! guards; then the
system-program transfer of the entry fee (modelled from the spec, section
6); then the entry record is written and the three counters are bumped
with checked arithmetic, `token_counts[token_index] += 1` being a
read-modify-write whose read panics out of bounds. -/
def enterGame (w : World) (player token_index : Nat) : TxM :=
  if w.entries.any (fun e => e.player == player) then
    .error (.accountExists, w)
  else if NUM_TOKENS ≤ token_index then
    .error (.program .InvalidTokenIndex, w)
  else if w.game.status ≠ GameStatus.Open then
    .error (.program .GameNotOpen, w)
  else if w.playerBalance player < w.game.entry_fee then
    .error (.insufficientFunds, w)
  else if U64_MAX < w.vaultBalance + w.game.entry_fee then
    .error (.panicOverflow, w)
  else
    let w2 : World :=
      { w with
          vaultBalance := w.vaultBalance + w.game.entry_fee
          playerBalance := fun q =>
            if q = player then w.playerBalance player - w.game.entry_fee
            else w.playerBalance q
          entries := w.entries ++
            [{ player := player, token_index := token_index, claimed := false }] }
    if U64_MAX < w2.game.total_pot + w2.game.entry_fee then
      .error (.panicOverflow, w2)
    else
      let w3 : World :=
        { w2 with game :=
            { w2.game with total_pot := w2.game.total_pot + w2.game.entry_fee } }
      if U32_MAX < w3.game.player_count + 1 then
        .error (.panicOverflow, w3)
      else
        let w4 : World :=
          { w3 with game :=
              { w3.game with player_count := w3.game.player_count + 1 } }
        match w4.game.token_counts[token_index]? with
        | none => .error (.panicIndex, w4)
        | some c =>
          if U32_MAX < c + 1 then .error (.panicOverflow, w4)
          else
            .ok { w4 with game :=
                { w4.game with
                    token_counts := w4.game.token_counts.set token_index (c + 1) } }

/-- The `as u64` cast of an i64 timestamp: two's-complement
reinterpretation, i.e. the value modulo 2^64. -/
def toU64 (t : Int) : Nat := (t.emod (2 ^ 64)).toNat

/-- trigger_rug.  The has_one = authority constraint runs first; then the
two require! guards; then the survivor index is derived from
slot.wrapping_add(timestamp as u64) reduced modulo NUM_TOKENS, and the
game is frozen.  The RugPulled event reads token_counts[survivor_index],
which panics if that index is out of bounds. -/
def triggerRug (w : World) (caller slot : Nat) (unix_timestamp : Int) : TxM :=
  if caller ≠ w.game.authority then
    .error (.notAuthority, w)
  else if w.game.status ≠ GameStatus.Open then
    .error (.program .GameNotOpen, w)
  else if w.game.player_count = 0 then
    .error (.program .NoPlayers, w)
  else
    let pseudo_random : Nat := (slot + toU64 unix_timestamp) % U64_MOD
    let survivor : Nat := pseudo_random % NUM_TOKENS
    let g2 : Game :=
      { w.game with survivor_index := some survivor, status := GameStatus.Rugged }
    match g2.token_counts[survivor]? with
    | none => .error (.panicIndex, { w with game := g2 })
    | some _ => .ok { w with game := g2 }

/-- claim_winnings.  The has_one constraints tie the entry PDA to the
calling player (the entry is looked up by player; a missing PDA fails
account resolution); then the require! guards in source order; then
winnings = total_pot / survivor_count with u64 floor division; then the
raw lamport moves: the vault debit is a checked u64 subtraction (there is
no balance guard in the source, an insufficient vault aborts with an
underflow panic), the player credit a checked u64 addition; finally
claimed is set. -/
def claimWinnings (w : World) (player : Nat) : TxM :=
  match findEntry w player with
  | none => .error (.accountMissing, w)
  | some entry =>
    if w.game.status ≠ GameStatus.Rugged then
      .error (.program .GameNotRugged, w)
    else if entry.claimed then
      .error (.program .AlreadyClaimed, w)
    else
      match w.game.survivor_index with
      | none => .error (.program .NoSurvivor, w)
      | some survivor =>
        if entry.token_index ≠ survivor then
          .error (.program .NotASurvivor, w)
        else
          match w.game.token_counts[survivor]? with
          | none => .error (.panicIndex, w)
          | some survivor_count =>
            if survivor_count = 0 then
              .error (.program .NoSurvivors, w)
            else
              let winnings : Nat := w.game.total_pot / survivor_count
              if w.vaultBalance < winnings then
                .error (.panicOverflow, w)
              else
                let w2 : World := { w with vaultBalance := w.vaultBalance - winnings }
                if U64_MAX < w2.playerBalance player + winnings then
                  .error (.panicOverflow, w2)
                else
                  let w3 : World :=
                    { w2 with playerBalance := fun q =>
                        if q = player then w2.playerBalance player + winnings
                        else w2.playerBalance q }
                  .ok { w3 with entries :=
                      w3.entries.map (fun e =>
                        if e.player == player then { e with claimed := true } else e) }

/-- One successful instruction of the full interface (enter_game,
trigger_rug or claim_winnings on the existing game). -/
inductive Step : World → World → Prop where
  | enter (w w' : World) (p tok : Nat) : enterGame w p tok = .ok w' → Step w w'
  | rug (w w' : World) (c s : Nat) (t : Int) : triggerRug w c s t = .ok w' → Step w w'
  | claim (w w' : World) (p : Nat) : claimWinnings w p = .ok w' → Step w w'

/-- Worlds reachable from initialize_game by successful enter_game and
trigger_rug calls (the trace language of claim C1). -/
inductive ReachER : World → Prop where
  | init (a fee : Nat) (bal : Nat → Nat) : fee ≤ U64_MAX → ReachER (initGame a fee bal)
  | enter {w w' : World} (p tok : Nat) :
      ReachER w → enterGame w p tok = .ok w' → ReachER w'
  | rug {w w' : World} (c s : Nat) (t : Int) :
      ReachER w → triggerRug w c s t = .ok w' → ReachER w'

/-- Worlds reachable from initialize_game by any successful calls of the
other three instructions. -/
inductive Reach : World → Prop where
  | init (a fee : Nat) (bal : Nat → Nat) : fee ≤ U64_MAX → Reach (initGame a fee bal)
  | step {w w' : World} : Reach w → Step w w' → Reach w'

/-- The inductive invariant tied to the game record and the entry PDAs;
it is preserved by all four instructions. -/
structure Inv (w : World) : Prop where
  len : w.game.token_counts.length = NUM_TOKENS
  pot : w.game.total_pot = w.game.entry_fee * w.game.player_count
  tsum : w.game.token_counts.sum = w.game.player_count
  surv_iff : w.game.survivor_index.isSome ↔ w.game.status = GameStatus.Rugged
  surv_lt : ∀ i, w.game.survivor_index = some i → i < NUM_TOKENS
  tok_lt : ∀ e ∈ w.entries, e.token_index < NUM_TOKENS
  nodup : (w.entries.map Entry.player).Nodup
  counts : ∀ i < NUM_TOKENS,
    w.game.token_counts[i]? =
      some ((w.entries.filter (fun e => e.token_index == i)).length)
  claimed_surv : ∀ e ∈ w.entries, e.claimed = true →
    w.game.status = GameStatus.Rugged ∧ w.game.survivor_index = some e.token_index

/-- Strengthening of the invariant that holds as long as no claim has
been made: the vault holds exactly the pot and every entry is unclaimed. -/
structure InvER (w : World) extends Inv w : Prop where
  vault : w.vaultBalance = w.game.total_pot
  unclaimed : ∀ e ∈ w.entries, e.claimed = false

theorem sum_set_succ {l : List Nat} {i c : Nat} (h : l[i]? = some c) :
    (l.set i (c + 1)).sum = l.sum + 1 := by
  have hi : i < l.length := by
    by_contra hlt
    rw [List.getElem?_eq_none (by omega)] at h
    exact Option.noConfusion h
  have hc : l[i] = c := by
    rw [List.getElem?_eq_getElem hi] at h
    exact Option.some.inj h
  rw [List.sum_set, if_pos hi]
  have hdrop : l.drop i = l[i] :: l.drop (i + 1) := List.drop_eq_getElem_cons hi
  have hl : (l.take i).sum + (l.drop i).sum = l.sum := List.sum_take_add_sum_drop l i
  rw [hdrop] at hl
  simp only [List.sum_cons, hc] at hl
  omega

/-- Elimination form of a successful enter_game: the guards that must
have passed and the resulting world, field by field. -/
theorem enterGame_ok {w w' : World} {p tok : Nat}
    (h : enterGame w p tok = .ok w') :
    (∀ e ∈ w.entries, e.player ≠ p) ∧ tok < NUM_TOKENS ∧
    w.game.status = GameStatus.Open ∧
    ∃ c, w.game.token_counts[tok]? = some c ∧
      w'.game.authority = w.game.authority ∧
      w'.game.entry_fee = w.game.entry_fee ∧
      w'.game.total_pot = w.game.total_pot + w.game.entry_fee ∧
      w'.game.player_count = w.game.player_count + 1 ∧
      w'.game.status = w.game.status ∧
      w'.game.survivor_index = w.game.survivor_index ∧
      w'.game.token_counts = w.game.token_counts.set tok (c + 1) ∧
      w'.vaultBalance = w.vaultBalance + w.game.entry_fee ∧
      w'.playerBalance = (fun q =>
        if q = p then w.playerBalance p - w.game.entry_fee else w.playerBalance q) ∧
      w'.entries = w.entries ++ [⟨p, tok, false⟩] := by
  unfold enterGame at h
  dsimp only at h
  split at h
  · exact absurd h (by simp)
  · split at h
    · exact absurd h (by simp)
    · split at h
      · exact absurd h (by simp)
      · split at h
        · exact absurd h (by simp)
        · split at h
          · exact absurd h (by simp)
          · split at h
            · exact absurd h (by simp)
            · split at h
              · exact absurd h (by simp)
              · rename_i hdup htok hopen hbal hvault hpot hcnt
                refine ⟨?_, by omega, by simpa using hopen, ?_⟩
                · intro e he
                  simp only [List.any_eq_true, beq_iff_eq, not_exists, not_and] at hdup
                  exact hdup e he
                · split at h
                  · exact absurd h (by simp)
                  · rename_i c hsome
                    split at h
                    · exact absurd h (by simp)
                    · cases h
                      exact ⟨c, hsome, rfl, rfl, rfl, rfl, rfl, rfl, rfl, rfl, rfl, rfl⟩

/-- Elimination form of a successful trigger_rug: guards passed and the
resulting world, field by field. -/
theorem triggerRug_ok {w w' : World} {c s : Nat} {t : Int}
    (h : triggerRug w c s t = .ok w') :
    c = w.game.authority ∧ w.game.status = GameStatus.Open ∧
    w.game.player_count ≠ 0 ∧
    (∃ x, w.game.token_counts[(s + toU64 t) % U64_MOD % NUM_TOKENS]? = some x) ∧
    w'.game.authority = w.game.authority ∧
    w'.game.entry_fee = w.game.entry_fee ∧
    w'.game.total_pot = w.game.total_pot ∧
    w'.game.player_count = w.game.player_count ∧
    w'.game.status = GameStatus.Rugged ∧
    w'.game.survivor_index = some ((s + toU64 t) % U64_MOD % NUM_TOKENS) ∧
    w'.game.token_counts = w.game.token_counts ∧
    w'.vaultBalance = w.vaultBalance ∧
    w'.playerBalance = w.playerBalance ∧
    w'.entries = w.entries := by
  unfold triggerRug at h
  dsimp only at h
  split at h
  · exact absurd h (by simp)
  · split at h
    · exact absurd h (by simp)
    · split at h
      · exact absurd h (by simp)
      · rename_i hauth hopen hcnt
        split at h
        · exact absurd h (by simp)
        · rename_i x hsome
          cases h
          refine ⟨by simpa using hauth, by simpa using hopen, hcnt, ⟨x, hsome⟩,
            rfl, rfl, rfl, rfl, rfl, rfl, rfl, rfl, rfl, rfl⟩

/-- Elimination form of a successful claim_winnings: guards passed and
the resulting world, field by field.  The game record is untouched. -/
theorem claimWinnings_ok {w w' : World} {p : Nat}
    (h : claimWinnings w p = .ok w') :
    ∃ e, findEntry w p = some e ∧ w.game.status = GameStatus.Rugged ∧
      e.claimed = false ∧
      ∃ s, w.game.survivor_index = some s ∧ e.token_index = s ∧
      ∃ k, w.game.token_counts[s]? = some k ∧ k ≠ 0 ∧
        w.game.total_pot / k ≤ w.vaultBalance ∧
        w.playerBalance p + w.game.total_pot / k ≤ U64_MAX ∧
        w'.game = w.game ∧
        w'.vaultBalance = w.vaultBalance - w.game.total_pot / k ∧
        w'.playerBalance = (fun q =>
          if q = p then w.playerBalance p + w.game.total_pot / k
          else w.playerBalance q) ∧
        w'.entries = w.entries.map (fun x =>
          if x.player == p then { x with claimed := true } else x) := by
  unfold claimWinnings at h
  split at h
  · exact absurd h (by simp)
  · rename_i e hfind
    refine ⟨e, hfind, ?_⟩
    dsimp only at h
    split at h
    · exact absurd h (by simp)
    · split at h
      · exact absurd h (by simp)
      · rename_i hrug hclaimed
        refine ⟨by simpa using hrug, by simpa using hclaimed, ?_⟩
        split at h
        · exact absurd h (by simp)
        · rename_i s hsurv
          refine ⟨s, hsurv, ?_⟩
          split at h
          · exact absurd h (by simp)
          · rename_i htok
            refine ⟨by simpa using htok, ?_⟩
            split at h
            · exact absurd h (by simp)
            · rename_i k hcnt
              refine ⟨k, hcnt, ?_⟩
              split at h
              · exact absurd h (by simp)
              · rename_i hk0
                refine ⟨hk0, ?_⟩
                split at h
                · exact absurd h (by simp)
                · rename_i hvault
                  split at h
                  · exact absurd h (by simp)
                  · rename_i hover
                    cases h
                    exact ⟨by omega, by simpa using Nat.le_of_not_lt hover,
                      rfl, rfl, rfl, rfl⟩

/-- A player has at most one entry PDA: any entry bearing the looked-up
player is the looked-up entry. -/
theorem findEntry_unique {w : World} {p : Nat} {e x : Entry}
    (hnd : (w.entries.map Entry.player).Nodup)
    (hf : findEntry w p = some e) (hx : x ∈ w.entries) (hpx : x.player = p) :
    x = e := by
  have he : e ∈ w.entries := List.mem_of_find?_eq_some hf
  have hpe : e.player = p := by simpa using List.find?_some hf
  exact List.inj_on_of_nodup_map hnd hx he (by rw [hpx, hpe])

theorem invER_init (a fee : Nat) (bal : Nat → Nat) : InvER (initGame a fee bal) :=
  { len := by simp [initGame]
    pot := by simp [initGame]
    tsum := by simp [initGame]
    surv_iff := by simp [initGame]
    surv_lt := by simp [initGame]
    tok_lt := by simp [initGame]
    nodup := by simp [initGame]
    counts := by intro i hi; simp [initGame, List.getElem?_replicate, hi]
    claimed_surv := by simp [initGame]
    vault := by simp [initGame]
    unclaimed := by simp [initGame] }

theorem inv_enter {w w' : World} {p tok : Nat}
    (hw : Inv w) (h : enterGame w p tok = .ok w') : Inv w' := by
  obtain ⟨hnew, htok, hopen, c, hc, ha, hf, hpot, hpc, hst, hsv, htc, hvb, hpb, hent⟩ :=
    enterGame_ok h
  have hlen : tok < w.game.token_counts.length := by rw [hw.len]; exact htok
  refine
    { len := by rw [htc, List.length_set]; exact hw.len
      pot := by rw [hpot, hf, hpc, hw.pot]; ring
      tsum := by rw [htc, hpc, sum_set_succ hc, hw.tsum]
      surv_iff := by rw [hsv, hst]; exact hw.surv_iff
      surv_lt := by rw [hsv]; exact hw.surv_lt
      tok_lt := ?_
      nodup := ?_
      counts := ?_
      claimed_surv := ?_ }
  · rw [hent]
    intro e he
    rcases List.mem_append.1 he with h1 | h1
    · exact hw.tok_lt e h1
    · simp only [List.mem_singleton] at h1
      subst h1
      exact htok
  · rw [hent, List.map_append]
    rw [List.nodup_append]
    refine ⟨hw.nodup, by simp, ?_⟩
    intro a ha1 ha2
    simp only [List.map_cons, List.map_nil, List.mem_singleton] at ha2
    subst ha2
    simp only [List.mem_map] at ha1
    obtain ⟨x, hx1, hx2⟩ := ha1
    exact hnew x hx1 hx2
  · intro i hi
    rw [htc, hent, List.filter_append]
    rw [List.getElem?_set]
    by_cases hti : tok = i
    · subst hti
      rw [if_pos rfl, if_pos hlen]
      have := hw.counts tok htok
      rw [hc] at this
      have hcc : c = (w.entries.filter (fun e => e.token_index == tok)).length :=
        Option.some.inj this
      simp [hcc]
    · rw [if_neg hti]
      have := hw.counts i hi
      rw [this]
      have : (List.filter (fun e => e.token_index == i)
          [({ player := p, token_index := tok, claimed := false } : Entry)]) = [] := by
        simp [hti]
      simp [this]
  · rw [hent, hst]
    intro e he hcl
    rcases List.mem_append.1 he with h1 | h1
    · have := (hw.claimed_surv e h1 hcl).1
      rw [hopen] at this
      exact absurd this (by simp)
    · simp only [List.mem_singleton] at h1
      subst h1
      exact absurd hcl (by simp)

theorem invER_enter {w w' : World} {p tok : Nat}
    (hw : InvER w) (h : enterGame w p tok = .ok w') : InvER w' := by
  obtain ⟨hnew, htok, hopen, c, hc, ha, hf, hpot, hpc, hst, hsv, htc, hvb, hpb, hent⟩ :=
    enterGame_ok h
  refine { toInv := inv_enter hw.toInv h, vault := ?_, unclaimed := ?_ }
  · rw [hvb, hpot, hw.vault]
  · rw [hent]
    intro e he
    rcases List.mem_append.1 he with h1 | h1
    · exact hw.unclaimed e h1
    · simp only [List.mem_singleton] at h1
      subst h1
      rfl

theorem inv_rug {w w' : World} {c s : Nat} {t : Int}
    (hw : Inv w) (h : triggerRug w c s t = .ok w') : Inv w' := by
  obtain ⟨hauth, hopen, hcnt, ⟨x, hx⟩, ha, hf, hpot, hpc, hst, hsv, htc, hvb, hpb, hent⟩ :=
    triggerRug_ok h
  refine
    { len := by rw [htc]; exact hw.len
      pot := by rw [hpot, hf, hpc]; exact hw.pot
      tsum := by rw [htc, hpc]; exact hw.tsum
      surv_iff := by rw [hsv, hst]; simp
      surv_lt := ?_
      tok_lt := by rw [hent]; exact hw.tok_lt
      nodup := by rw [hent]; exact hw.nodup
      counts := by intro i hi; rw [htc, hent]; exact hw.counts i hi
      claimed_surv := ?_ }
  · rw [hsv]
    intro i hi
    have : i = (s + toU64 t) % U64_MOD % NUM_TOKENS := (Option.some.inj hi).symm
    rw [this]
    exact Nat.mod_lt _ (by norm_num [NUM_TOKENS])
  · rw [hent]
    intro e he hcl
    have := (hw.claimed_surv e he hcl).1
    rw [hopen] at this
    exact absurd this (by simp)

theorem invER_rug {w w' : World} {c s : Nat} {t : Int}
    (hw : InvER w) (h : triggerRug w c s t = .ok w') : InvER w' := by
  obtain ⟨hauth, hopen, hcnt, ⟨x, hx⟩, ha, hf, hpot, hpc, hst, hsv, htc, hvb, hpb, hent⟩ :=
    triggerRug_ok h
  refine { toInv := inv_rug hw.toInv h, vault := ?_, unclaimed := ?_ }
  · rw [hvb, hpot, hw.vault]
  · rw [hent]; exact hw.unclaimed

/-- The claimed-flag update of claim_winnings does not change an entry's
player or token. -/
theorem claimUpd_player (p : Nat) (x : Entry) :
    ((if x.player == p then { x with claimed := true } else x) : Entry).player
      = x.player := by
  by_cases hx : x.player = p <;> simp [hx]

theorem claimUpd_tok (p : Nat) (x : Entry) :
    ((if x.player == p then { x with claimed := true } else x) : Entry).token_index
      = x.token_index := by
  by_cases hx : x.player = p <;> simp [hx]

theorem inv_claim {w w' : World} {p : Nat}
    (hw : Inv w) (h : claimWinnings w p = .ok w') : Inv w' := by
  obtain ⟨e, hfind, hrug, hecl, s, hsurv, hts, k, hk, hk0, hvle, hov, hg, hvb, hpb, hent⟩ :=
    claimWinnings_ok h
  refine
    { len := by rw [hg]; exact hw.len
      pot := by rw [hg]; exact hw.pot
      tsum := by rw [hg]; exact hw.tsum
      surv_iff := by rw [hg]; exact hw.surv_iff
      surv_lt := by rw [hg]; exact hw.surv_lt
      tok_lt := ?_
      nodup := ?_
      counts := ?_
      claimed_surv := ?_ }
  · rw [hent]
    intro e' he'
    obtain ⟨x, hx, hxe⟩ := List.mem_map.1 he'
    rw [← hxe, claimUpd_tok]
    exact hw.tok_lt x hx
  · rw [hent, List.map_map]
    have : (Entry.player ∘ fun x =>
        if x.player == p then { x with claimed := true } else x) = Entry.player := by
      funext x
      exact claimUpd_player p x
    rw [this]
    exact hw.nodup
  · intro i hi
    rw [hg, hent]
    rw [List.filter_map]
    rw [List.length_map]
    have : (List.filter ((fun e => e.token_index == i) ∘ fun x =>
        if x.player == p then { x with claimed := true } else x) w.entries)
        = List.filter (fun e => e.token_index == i) w.entries := by
      apply List.filter_congr
      intro x _
      simp only [Function.comp_apply, claimUpd_tok]
    rw [this]
    exact hw.counts i hi
  · rw [hg, hent]
    intro e' he' hcl
    obtain ⟨x, hx, hxe⟩ := List.mem_map.1 he'
    by_cases hxp : x.player = p
    · have hxeq : x = e := findEntry_unique hw.nodup hfind hx hxp
      have : e'.token_index = x.token_index := by rw [← hxe, claimUpd_tok]
      rw [this, hxeq, hts]
      exact ⟨hrug, hsurv⟩
    · have hex : e' = x := by rw [← hxe]; simp [hxp]
      rw [hex] at hcl ⊢
      exact hw.claimed_surv x hx hcl

/-- Every world reachable by enter_game / trigger_rug alone satisfies the
strengthened invariant. -/
theorem reachER_invER {w : World} (h : ReachER w) : InvER w := by
  induction h with
  | init a fee bal hf => exact invER_init a fee bal
  | enter p tok hr he ih => exact invER_enter ih he
  | rug c s t hr ht ih => exact invER_rug ih ht

/-- Every world reachable by the full interface satisfies the invariant. -/
theorem reach_inv {w : World} (h : Reach w) : Inv w := by
  induction h with
  | init a fee bal hf => exact (invER_init a fee bal).toInv
  | step hr hs ih =>
    cases hs with
    | enter p tok he => exact inv_enter ih he
    | rug c s t ht => exact inv_rug ih ht
    | claim p hc => exact inv_claim ih hc

/-- Introduction form of a successful claim_winnings: when all guards
pass, the vault is debited and the player credited by
total_pot / survivor_count, and the entry is marked claimed. -/
theorem claimWinnings_intro {w : World} {p : Nat} {e : Entry} {s k : Nat}
    (hfind : findEntry w p = some e)
    (hrug : w.game.status = GameStatus.Rugged)
    (hcl : e.claimed = false)
    (hsurv : w.game.survivor_index = some s)
    (htok : e.token_index = s)
    (hcnt : w.game.token_counts[s]? = some k)
    (hk : k ≠ 0)
    (hva : w.game.total_pot / k ≤ w.vaultBalance)
    (hov : w.playerBalance p + w.game.total_pot / k ≤ U64_MAX) :
    claimWinnings w p = .ok
      { game := w.game
        vaultBalance := w.vaultBalance - w.game.total_pot / k
        playerBalance := fun q =>
          if q = p then w.playerBalance p + w.game.total_pot / k
          else w.playerBalance q
        entries := w.entries.map (fun x =>
          if x.player == p then { x with claimed := true } else x) } := by
  unfold claimWinnings
  rw [hfind]
  dsimp only
  rw [if_neg (by rw [hrug]; simp)]
  rw [if_neg (by rw [hcl]; simp)]
  rw [hsurv]
  dsimp only
  rw [if_neg (by rw [htok]; simp)]
  rw [hcnt]
  dsimp only
  rw [if_neg hk]
  rw [if_neg (by omega)]
  rw [if_neg (by omega)]

/-- An entry of the world is found by findEntry under the one-entry-per
player discipline. -/
theorem findEntry_of_mem {w : World} {e : Entry}
    (hnd : (w.entries.map Entry.player).Nodup) (he : e ∈ w.entries) :
    findEntry w e.player = some e := by
  have hs : (w.entries.find? (fun x => x.player == e.player)).isSome := by
    rw [List.find?_isSome]
    exact ⟨e, he, by simp⟩
  obtain ⟨x, hx⟩ := Option.isSome_iff_exists.1 hs
  have hx' : findEntry w e.player = some x := hx
  have : e = x := findEntry_unique hnd hx' he rfl
  rw [hx', ← this]

/-- Looking up an entry after the claimed-flag rewrite of claim_winnings. -/
theorem findEntry_map_claim {w w' : World} {p : Nat}
    (hent : w'.entries = w.entries.map (fun x =>
      if x.player == p then { x with claimed := true } else x)) (q : Nat) :
    findEntry w' q = (findEntry w q).map (fun x =>
      if x.player == p then { x with claimed := true } else x) := by
  unfold findEntry
  rw [hent, List.find?_map]
  have hp : ((fun (e : Entry) => e.player == q) ∘ fun (x : Entry) =>
      if x.player == p then { x with claimed := true } else x)
      = (fun (e : Entry) => e.player == q) := by
    funext x
    simp only [Function.comp_apply, claimUpd_player]
  rw [hp]

/-- The invariant is preserved by every successful instruction. -/
theorem step_inv {w w' : World} (hw : Inv w) (hs : Step w w') : Inv w' := by
  cases hs with
  | enter p tok he => exact inv_enter hw he
  | rug c s t ht => exact inv_rug hw ht
  | claim p hc => exact inv_claim hw hc

/-- Once a game is rugged, every later successful instruction is a
claim_winnings by some winning entry: the game record never changes
again, a given entry keeps its token, and the balance of a player whose
entry did not pick the survivor never changes. -/
theorem rugged_future {w w' : World} (h : Relation.ReflTransGen Step w w')
    (hinv : Inv w) (hrug : w.game.status = GameStatus.Rugged)
    {p : Nat} {e : Entry} (hfind : findEntry w p = some e)
    (hne : w.game.survivor_index ≠ some e.token_index) :
    Inv w' ∧ w'.game = w.game ∧
    (∃ e', findEntry w' p = some e' ∧ e'.token_index = e.token_index) ∧
    w'.playerBalance p = w.playerBalance p := by
  induction h with
  | refl => exact ⟨hinv, rfl, ⟨e, hfind, rfl⟩, rfl⟩
  | tail hsteps hstep ih =>
    obtain ⟨hinv1, hgame1, ⟨e1, hfind1, htok1⟩, hbal1⟩ := ih
    rename_i w1 w2
    cases hstep with
    | enter q tok heq =>
      have hopen := (enterGame_ok heq).2.2.1
      rw [hgame1, hrug] at hopen
      exact absurd hopen (by simp)
    | rug c s t htq =>
      have hopen := (triggerRug_ok htq).2.1
      rw [hgame1, hrug] at hopen
      exact absurd hopen (by simp)
    | claim q hcq =>
      obtain ⟨ec, hfindq, _, _, s, hsurvq, htokq, _, _, _, _, _, hg, hvb, hpb, hent⟩ :=
        claimWinnings_ok hcq
      have hqp : q ≠ p := by
        intro hqp
        subst hqp
        have hee : ec = e1 := by
          rw [hfindq] at hfind1
          exact Option.some.inj hfind1
        rw [hgame1] at hsurvq
        apply hne
        rw [hsurvq, ← htok1, ← hee, htokq]
      refine ⟨inv_claim hinv1 hcq, by rw [hg, hgame1], ?_, ?_⟩
      · refine ⟨if e1.player == q then { e1 with claimed := true } else e1, ?_, ?_⟩
        · rw [findEntry_map_claim hent p, hfind1]
          rfl
        · rw [claimUpd_tok, htok1]
      · rw [hpb]
        dsimp only
        rw [if_neg (fun hpq => hqp hpq.symm), hbal1]

/-- Sequential claim_payout calls by the given players, stopping at the
first failure. -/
def claimAll : World → List Nat → TxM
  | w, [] => .ok w
  | w, p :: ps =>
    match claimWinnings w p with
    | .ok w' => claimAll w' ps
    | .error err => .error err

/-- The players holding a winning entry for survivor choice s. -/
def winners (w : World) (s : Nat) : List Nat :=
  (w.entries.filter (fun e => e.token_index == s)).map Entry.player

/-- Running claim_payout once for each player in a list of distinct
holders of unclaimed winning entries succeeds throughout, pays each
exactly total_pot / k, and leaves exactly the rounding dust in the
vault. -/
theorem claimAll_spec {s k P : Nat} (ps : List Nat) :
    ∀ w : World,
      Inv w →
      w.game.status = GameStatus.Rugged →
      w.game.survivor_index = some s →
      w.game.token_counts[s]? = some k →
      w.game.total_pot = P →
      k ≠ 0 →
      ps.Nodup →
      (∀ q ∈ ps, ∃ e, findEntry w q = some e ∧ e.token_index = s ∧ e.claimed = false) →
      w.vaultBalance = ps.length * (P / k) + (P - k * (P / k)) →
      ps.length ≤ k →
      (∀ q ∈ ps, w.playerBalance q + P / k ≤ U64_MAX) →
      ∃ wf, claimAll w ps = .ok wf ∧
        wf.vaultBalance = P - k * (P / k) ∧
        (∀ q ∈ ps, wf.playerBalance q = w.playerBalance q + P / k) ∧
        (∀ q, q ∉ ps → wf.playerBalance q = w.playerBalance q) := by
  induction ps with
  | nil =>
    intro w hinv hrug hsurv hcnt hpot hk hnd hment hvault hlen hov
    exact ⟨w, rfl, by simpa using hvault, by simp, fun q _ => rfl⟩
  | cons p ps ih =>
    intro w hinv hrug hsurv hcnt hpot hk hnd hment hvault hlen hov
    have hmul : k * (P / k) ≤ P := by
      rw [Nat.mul_comm]
      exact Nat.div_mul_le_self P k
    have hvault' : w.vaultBalance = ps.length * (P / k) + (P / k) + (P - k * (P / k)) := by
      rw [hvault, List.length_cons, Nat.succ_mul]
    obtain ⟨e, hfind, htok, hecl⟩ := hment p (List.mem_cons_self p ps)
    have hva : w.game.total_pot / k ≤ w.vaultBalance := by rw [hpot]; omega
    have hovp : w.playerBalance p + w.game.total_pot / k ≤ U64_MAX := by
      rw [hpot]; exact hov p (List.mem_cons_self p ps)
    obtain ⟨w2, hclaim, hg2, hv2, hp2, he2⟩ :
        ∃ w2, claimWinnings w p = .ok w2 ∧ w2.game = w.game ∧
          w2.vaultBalance = w.vaultBalance - w.game.total_pot / k ∧
          w2.playerBalance = (fun q =>
            if q = p then w.playerBalance p + w.game.total_pot / k
            else w.playerBalance q) ∧
          w2.entries = w.entries.map (fun x =>
            if x.player == p then { x with claimed := true } else x) :=
      ⟨_, claimWinnings_intro hfind hrug hecl hsurv htok hcnt hk hva hovp,
        rfl, rfl, rfl, rfl⟩
    have hpnotin : p ∉ ps := (List.nodup_cons.1 hnd).1
    have hbal2 : ∀ q, q ≠ p → w2.playerBalance q = w.playerBalance q := by
      intro q hq
      rw [hp2]
      dsimp only
      rw [if_neg hq]
    obtain ⟨wf, hrun, hvf, hpay, hpres⟩ :=
      ih w2 (inv_claim hinv hclaim)
        (by rw [hg2]; exact hrug)
        (by rw [hg2]; exact hsurv)
        (by rw [hg2]; exact hcnt)
        (by rw [hg2]; exact hpot)
        hk
        (List.nodup_cons.1 hnd).2
        (by
          intro q hq
          have hqp : q ≠ p := fun hqp => hpnotin (hqp ▸ hq)
          obtain ⟨eq', hfq, htq, hcq⟩ := hment q (List.mem_cons_of_mem p hq)
          have hpq : eq'.player = q := by
            simpa using List.find?_some hfq
          have hfalse : (eq'.player == p) = false := by
            simp [hpq, hqp]
          refine ⟨eq', ?_, htq, hcq⟩
          rw [findEntry_map_claim he2 q, hfq]
          simp only [Option.map_some']
          rw [hfalse]
          simp)
        (by rw [hv2, hpot]; omega)
        (by simp at hlen ⊢; omega)
        (by
          intro q hq
          have hqp : q ≠ p := fun hqp => hpnotin (hqp ▸ hq)
          rw [hbal2 q hqp]
          exact hov q (List.mem_cons_of_mem p hq))
    refine ⟨wf, ?_, hvf, ?_, ?_⟩
    · show claimAll w (p :: ps) = .ok wf
      unfold claimAll
      rw [hclaim]
      exact hrun
    · intro q hq
      rcases List.mem_cons.1 hq with hq1 | hq1
      · subst hq1
        rw [hpres q hpnotin, hp2]
        dsimp only
        rw [if_pos rfl, hpot]
      · rw [hpay q hq1, hbal2 q (fun hqp => hpnotin (hqp ▸ hq1))]
    · intro q hq
      have hq1 : q ≠ p := fun h1 => hq (h1 ▸ List.mem_cons_self p ps)
      have hq2 : q ∉ ps := fun h2 => hq (List.mem_cons_of_mem p h2)
      rw [hpres q hq2, hbal2 q hq1]

/-! Concrete example run: authority 7 opens a game with entry fee 100;
players 1 and 2 pick token 2, player 3 picks token 5; the rug is
triggered at slot 2, timestamp 0, so the survivor token is (2 + 0) % 6 =
2; player 1 then claims 300 / 2 = 150. -/

def exBal : Nat → Nat := fun _ => 1000

def EW0 : World := initGame 7 100 exBal

def EW1 : World := (enterGame EW0 1 2).toOption.getD EW0

def EW2 : World := (enterGame EW1 2 2).toOption.getD EW0

def EW2c : World := (enterGame EW2 3 5).toOption.getD EW0

def EW3 : World := (triggerRug EW2c 7 2 0).toOption.getD EW0

def EW4 : World := (claimWinnings EW3 1).toOption.getD EW0

theorem reachER_EW0 : ReachER EW0 :=
  ReachER.init 7 100 exBal (by norm_num [U64_MAX, U64_MOD])

theorem reachER_EW1 : ReachER EW1 := ReachER.enter 1 2 reachER_EW0 rfl

theorem reachER_EW2 : ReachER EW2 := ReachER.enter 2 2 reachER_EW1 rfl

theorem reachER_EW2c : ReachER EW2c := ReachER.enter 3 5 reachER_EW2 rfl

theorem reachER_EW3 : ReachER EW3 := ReachER.rug 7 2 0 reachER_EW2c rfl

theorem reach_EW3 : Reach EW3 :=
  Reach.step
    (Reach.step
      (Reach.step
        (Reach.step (Reach.init 7 100 exBal (by norm_num [U64_MAX, U64_MOD]))
          (Step.enter EW0 EW1 1 2 rfl))
        (Step.enter EW1 EW2 2 2 rfl))
      (Step.enter EW2 EW2c 3 5 rfl))
    (Step.rug EW2c EW3 7 2 0 rfl)

theorem reach_EW4 : Reach EW4 := Reach.step reach_EW3 (Step.claim EW3 EW4 1 rfl)

/-- A second, unrelated run for the independence claim: authority 9,
entry fee 1, a single player 3 on token 5, rugged at the same slot 2 and
timestamp 0. -/
def FW0 : World := initGame 9 1 (fun _ => 50)

def FW1 : World := (enterGame FW0 3 5).toOption.getD FW0

def FW2 : World := (triggerRug FW1 9 2 0).toOption.getD FW0

/-- C1: for every game state reachable from initialize_game by successful
enter_game and trigger_rug calls, total_pot = entry_fee * player_count,
the token_counts entries sum to player_count, and survivor_index is set
if and only if the status is Rugged. -/
theorem c1_lifecycle_invariants {w : World} (h : ReachER w) :
    w.game.total_pot = w.game.entry_fee * w.game.player_count ∧
    w.game.token_counts.sum = w.game.player_count ∧
    (w.game.survivor_index.isSome ↔ w.game.status = GameStatus.Rugged) :=
  ⟨(reachER_invER h).pot, (reachER_invER h).tsum, (reachER_invER h).surv_iff⟩

theorem c1_witness :
    EW3.game.total_pot = EW3.game.entry_fee * EW3.game.player_count ∧
    EW3.game.token_counts.sum = EW3.game.player_count ∧
    (EW3.game.survivor_index.isSome ↔ EW3.game.status = GameStatus.Rugged) :=
  c1_lifecycle_invariants reachER_EW3

/-- C6: once a round is resolved, a second trigger_rug by the authority
fails on the status guard (the GameNotOpen error, the code's realization
of the spec's InvalidState) and returns before touching any field, so
survivor_index, status and all other Game fields stay exactly as the
first call set them and the resolution is never recomputed. -/
theorem c6_resolve_twice_fails {w w1 : World} {c s : Nat} {t : Int}
    {c2 s2 : Nat} {t2 : Int}
    (h1 : triggerRug w c s t = .ok w1) (hc2 : c2 = w1.game.authority) :
    triggerRug w1 c2 s2 t2 = .error (.program .GameNotOpen, w1) := by
  obtain ⟨_, _, _, _, _, _, _, _, hst, _⟩ := triggerRug_ok h1
  unfold triggerRug
  rw [if_neg (by rw [hc2]; simp)]
  rw [if_pos (by rw [hst]; simp)]

theorem c6_witness : triggerRug EW3 7 5 9 = .error (.program .GameNotOpen, EW3) :=
  c6_resolve_twice_fails (show triggerRug EW2c 7 2 0 = .ok EW3 from rfl) rfl

/-- C7: trigger_rug by the authority on an open round with no players
fails with the NoPlayers error (the spec's NoParticipants), leaving the
status Open and the survivor unset. -/
theorem c7_no_players {w : World} {c s : Nat} {t : Int} (h : ReachER w)
    (hopen : w.game.status = GameStatus.Open)
    (hcnt : w.game.player_count = 0) (hc : c = w.game.authority) :
    triggerRug w c s t = .error (.program .NoPlayers, w) ∧
    w.game.survivor_index = none := by
  constructor
  · unfold triggerRug
    rw [if_neg (by rw [hc]; simp)]
    rw [if_neg (by rw [hopen]; simp)]
    rw [if_pos hcnt]
  · have hiff := (reachER_invER h).surv_iff
    rw [hopen] at hiff
    have hns : ¬ w.game.survivor_index.isSome = true := by
      intro hs
      exact absurd (hiff.1 hs) (by simp)
    exact Option.not_isSome_iff_eq_none.mp hns

theorem c7_witness :
    triggerRug EW0 7 11 4 = .error (.program .NoPlayers, EW0) ∧
    EW0.game.survivor_index = none :=
  c7_no_players reachER_EW0 rfl rfl rfl

/-- C8: every successful trigger_rug at slot s and timestamp t selects
survivor ((s + t) mod 2^64) mod NUM_TOKENS — the i64-to-u64 cast of the
timestamp followed by wrapping_add is exactly addition modulo 2^64 — and
the selected index is always below 6. -/
theorem c8_survivor_formula {w w' : World} {c s : Nat} {t : Int}
    (h : triggerRug w c s t = .ok w') :
    w'.game.survivor_index =
      some ((((s : Int) + t).emod (2 ^ 64)).toNat % NUM_TOKENS) ∧
    (((s : Int) + t).emod (2 ^ 64)).toNat % NUM_TOKENS < 6 := by
  obtain ⟨_, _, _, _, _, _, _, _, _, hsv, _⟩ := triggerRug_ok h
  have hcast : (s + toU64 t) % U64_MOD = (((s : Int) + t).emod (2 ^ 64)).toNat := by
    unfold toU64 U64_MOD
    have h1 : t.emod (2 ^ 64) = t - 2 ^ 64 * (t / 2 ^ 64) := Int.emod_def t (2 ^ 64)
    have h2 : ((s : Int) + t).emod (2 ^ 64) =
        ((s : Int) + t) - 2 ^ 64 * (((s : Int) + t) / 2 ^ 64) := Int.emod_def _ _
    have h3 : 0 ≤ t.emod (2 ^ 64) := Int.emod_nonneg t (by norm_num)
    have h4 : t.emod (2 ^ 64) < 2 ^ 64 := Int.emod_lt_of_pos t (by norm_num)
    have h5 : 0 ≤ ((s : Int) + t).emod (2 ^ 64) := Int.emod_nonneg _ (by norm_num)
    have h6 : ((s : Int) + t).emod (2 ^ 64) < 2 ^ 64 := Int.emod_lt_of_pos _ (by norm_num)
    omega
  refine ⟨by rw [hsv, hcast], Nat.mod_lt _ (by norm_num [NUM_TOKENS])⟩

theorem c8_witness :
    EW3.game.survivor_index =
      some (((((2 : Nat) : Int) + (0 : Int)).emod (2 ^ 64)).toNat % NUM_TOKENS) ∧
    ((((2 : Nat) : Int) + (0 : Int)).emod (2 ^ 64)).toNat % NUM_TOKENS < 6 :=
  c8_survivor_formula (show triggerRug EW2c 7 2 0 = .ok EW3 from rfl)

/-- C9: survivor selection depends only on the environment slot and
timestamp, never on the game's content: two successful trigger_rug calls
under the same slot and timestamp select the same survivor in any two
games. -/
theorem c9_selection_independent {w1 w2 w1' w2' : World}
    {c1 c2 s : Nat} {t : Int}
    (h1 : triggerRug w1 c1 s t = .ok w1')
    (h2 : triggerRug w2 c2 s t = .ok w2') :
    w1'.game.survivor_index = w2'.game.survivor_index := by
  obtain ⟨_, _, _, _, _, _, _, _, _, hsv1, _⟩ := triggerRug_ok h1
  obtain ⟨_, _, _, _, _, _, _, _, _, hsv2, _⟩ := triggerRug_ok h2
  rw [hsv1, hsv2]

theorem c9_witness : EW3.game.survivor_index = FW2.game.survivor_index :=
  c9_selection_independent
    (show triggerRug EW2c 7 2 0 = .ok EW3 from rfl)
    (show triggerRug FW1 9 2 0 = .ok FW2 from rfl)

/-- C4: once an entry's claimed flag is true, any further claim_winnings
for it fails with the AlreadyClaimed error before any mutation, so the
vault, the player balance, the entry and the Game record are untouched
and no entry is ever paid twice.  (In a reachable world a claimed entry
implies the game is already rugged, so the status guard passes and the
claimed guard is the one that fires.) -/
theorem c4_already_claimed {w : World} {p : Nat} {e : Entry} (hr : Reach w)
    (hfind : findEntry w p = some e) (hcl : e.claimed = true) :
    claimWinnings w p = .error (.program .AlreadyClaimed, w) := by
  have hmem := List.mem_of_find?_eq_some hfind
  have hst := ((reach_inv hr).claimed_surv e hmem hcl).1
  unfold claimWinnings
  rw [hfind]
  dsimp only
  rw [if_neg (by rw [hst]; simp)]
  rw [if_pos hcl]

theorem c4_witness :
    claimWinnings EW4 1 = .error (.program .AlreadyClaimed, EW4) :=
  c4_already_claimed reach_EW4
    (show findEntry EW4 1 = some ⟨1, 2, true⟩ from rfl) rfl

/-- C5: in a resolved round, claim_winnings for an entry whose token is
not the survivor always fails with the NotASurvivor error (the spec's
NotAWinner) without touching any account, and no sequence of further
successful instructions ever moves funds to that player: the stake is
never refunded. -/
theorem c5_not_survivor {w : World} {p : Nat} {e : Entry} {s : Nat}
    (hr : Reach w)
    (hrug : w.game.status = GameStatus.Rugged)
    (hsurv : w.game.survivor_index = some s)
    (hfind : findEntry w p = some e) (hne : e.token_index ≠ s) :
    claimWinnings w p = .error (.program .NotASurvivor, w) ∧
    ∀ w', Relation.ReflTransGen Step w w' →
      w'.playerBalance p = w.playerBalance p := by
  have hinv := reach_inv hr
  have hmem := List.mem_of_find?_eq_some hfind
  have hcl : e.claimed = false := by
    cases hclaimed : e.claimed
    · rfl
    · have hsv := (hinv.claimed_surv e hmem hclaimed).2
      rw [hsurv] at hsv
      exact absurd (Option.some.inj hsv).symm hne
  constructor
  · unfold claimWinnings
    rw [hfind]
    dsimp only
    rw [if_neg (by rw [hrug]; simp)]
    rw [if_neg (by rw [hcl]; simp)]
    rw [hsurv]
    dsimp only
    rw [if_pos hne]
  · intro w' hw'
    have hne' : w.game.survivor_index ≠ some e.token_index := by
      rw [hsurv]
      intro hcon
      exact hne (Option.some.inj hcon).symm
    exact (rugged_future hw' hinv hrug hfind hne').2.2.2

theorem c5_witness :
    claimWinnings EW3 3 = .error (.program .NotASurvivor, EW3) ∧
    EW4.playerBalance 3 = EW3.playerBalance 3 :=
  ⟨(c5_not_survivor reach_EW3 rfl rfl
      (show findEntry EW3 3 = some ⟨3, 5, false⟩ from rfl) (by decide)).1,
   (c5_not_survivor reach_EW3 rfl rfl
      (show findEntry EW3 3 = some ⟨3, 5, false⟩ from rfl) (by decide)).2 EW4
      (Relation.ReflTransGen.single (Step.claim EW3 EW4 1 rfl))⟩

/-- C3 counterexample world: the guards of claim_winnings all hold for
player 1 (rugged, unclaimed winning entry, survivor count 1, winnings
500), but external interference left only 3 units in the vault. -/
def CW : World :=
  { game :=
      { authority := 7
        entry_fee := 100
        total_pot := 500
        player_count := 5
        status := GameStatus.Rugged
        survivor_index := some 2
        token_counts := [0, 0, 1, 2, 2, 0] }
    vaultBalance := 3
    playerBalance := fun _ => 0
    entries := [⟨1, 2, false⟩, ⟨2, 3, false⟩, ⟨3, 3, false⟩, ⟨4, 4, false⟩, ⟨5, 4, false⟩] }

/-- C3, counterexample: with the vault short of the winnings, the claim
fails — but with an arithmetic-underflow abort on the unguarded vault
debit, not with an InsufficientVaultBalance error: the program's error
enum (source lines 241-259) has no such variant and the handler performs
no balance check before the subtraction. -/
theorem c3_counterexample : claimWinnings CW 1 = .error (.panicOverflow, CW) := rfl

/-- C3, amended: when the guards pass but the vault holds less than the
computed winnings, claim_winnings aborts with the checked-subtraction
underflow panic on the vault debit (there is no program-defined
InsufficientVaultBalance error), and the abort happens before any
mutation, so the vault, the player balance and the claimed flag are
unchanged. -/
theorem c3_insufficient_vault_aborts {w : World} {p : Nat} {e : Entry} {s k : Nat}
    (hfind : findEntry w p = some e)
    (hrug : w.game.status = GameStatus.Rugged)
    (hcl : e.claimed = false)
    (hsurv : w.game.survivor_index = some s)
    (htok : e.token_index = s)
    (hcnt : w.game.token_counts[s]? = some k)
    (hk : k ≠ 0)
    (hlow : w.vaultBalance < w.game.total_pot / k) :
    claimWinnings w p = .error (.panicOverflow, w) := by
  unfold claimWinnings
  rw [hfind]
  dsimp only
  rw [if_neg (by rw [hrug]; simp)]
  rw [if_neg (by rw [hcl]; simp)]
  rw [hsurv]
  dsimp only
  rw [if_neg (by rw [htok]; simp)]
  rw [hcnt]
  dsimp only
  rw [if_neg hk]
  rw [if_pos hlow]

/-- A second short-vault world for exercising the amended C3 statement:
two winners on token 1, pot 400, winnings 200, vault only 10. -/
def CW2 : World :=
  { game :=
      { authority := 4
        entry_fee := 100
        total_pot := 400
        player_count := 4
        status := GameStatus.Rugged
        survivor_index := some 1
        token_counts := [0, 2, 1, 1, 0, 0] }
    vaultBalance := 10
    playerBalance := fun _ => 7
    entries := [⟨1, 1, false⟩, ⟨2, 1, false⟩, ⟨3, 2, false⟩, ⟨4, 3, false⟩] }

theorem c3_witness : claimWinnings CW2 1 = .error (.panicOverflow, CW2) :=
  c3_insufficient_vault_aborts
    (show findEntry CW2 1 = some ⟨1, 1, false⟩ from rfl) rfl rfl rfl rfl rfl
    (by decide) (by decide)

/-- C2: in a reachable resolved round with pot P and survivor count
k > 0, running claim_winnings once per winning entry succeeds throughout,
pays each winner exactly floor(P / k) (their balance grows by exactly
that amount), the total paid k * floor(P / k) is at most P, and exactly
the remainder P - k * floor(P / k) is left in the vault.  (The balance
bound hypothesis reflects that the lamport credit is checked u64
arithmetic.) -/
theorem c2_payout_split {w : World} {s k : Nat} (hr : ReachER w)
    (hrug : w.game.status = GameStatus.Rugged)
    (hsurv : w.game.survivor_index = some s)
    (hcnt : w.game.token_counts[s]? = some k) (hk : 0 < k)
    (hov : ∀ q ∈ winners w s,
      w.playerBalance q + w.game.total_pot / k ≤ U64_MAX) :
    (winners w s).length = k ∧
    k * (w.game.total_pot / k) ≤ w.game.total_pot ∧
    ∃ wf, claimAll w (winners w s) = .ok wf ∧
      wf.vaultBalance = w.game.total_pot - k * (w.game.total_pot / k) ∧
      ∀ q ∈ winners w s,
        wf.playerBalance q = w.playerBalance q + w.game.total_pot / k := by
  have hER := reachER_invER hr
  have hinv := hER.toInv
  have hsl : s < NUM_TOKENS := hinv.surv_lt s hsurv
  have hkw : (winners w s).length = k := by
    have hcs := hinv.counts s hsl
    rw [hcnt] at hcs
    have hkk := Option.some.inj hcs
    unfold winners
    rw [List.length_map, ← hkk]
  have hmul : k * (w.game.total_pot / k) ≤ w.game.total_pot := by
    rw [Nat.mul_comm]
    exact Nat.div_mul_le_self _ _
  refine ⟨hkw, hmul, ?_⟩
  have hnd : (winners w s).Nodup :=
    List.Nodup.sublist
      (List.Sublist.map Entry.player (List.filter_sublist w.entries)) hinv.nodup
  have hment : ∀ q ∈ winners w s,
      ∃ e, findEntry w q = some e ∧ e.token_index = s ∧ e.claimed = false := by
    intro q hq
    unfold winners at hq
    obtain ⟨e, he, hpe⟩ := List.mem_map.1 hq
    obtain ⟨hmem, htoke⟩ := List.mem_filter.1 he
    refine ⟨e, ?_, by simpa using htoke, hER.unclaimed e hmem⟩
    rw [← hpe]
    exact findEntry_of_mem hinv.nodup hmem
  have hvaultstart : w.vaultBalance =
      (winners w s).length * (w.game.total_pot / k) +
        (w.game.total_pot - k * (w.game.total_pot / k)) := by
    rw [hkw, hER.vault]
    omega
  obtain ⟨wf, hrun, hvf, hpay, _⟩ :=
    claimAll_spec (winners w s) w hinv hrug hsurv hcnt rfl (by omega) hnd hment
      hvaultstart (le_of_eq hkw) hov
  exact ⟨wf, hrun, hvf, hpay⟩

theorem c2_witness :
    (winners EW3 2).length = 2 ∧
    2 * (EW3.game.total_pot / 2) ≤ EW3.game.total_pot ∧
    ∃ wf, claimAll EW3 (winners EW3 2) = .ok wf ∧
      wf.vaultBalance = EW3.game.total_pot - 2 * (EW3.game.total_pot / 2) ∧
      ∀ q ∈ winners EW3 2,
        wf.playerBalance q = EW3.playerBalance q + EW3.game.total_pot / 2 :=
  c2_payout_split reachER_EW3 rfl rfl rfl (by norm_num) (by decide)

theorem errOf_error (e : TxError) (w : World) : errOf (.error (e, w)) = some e := rfl

theorem errOf_ok (w : World) : errOf (.ok w) = none := rfl

set_option maxHeartbeats 1600000 in
/-- C10: in every reachable world no instruction can abort on an
out-of-bounds token_counts access: enter_game only indexes after its
token_index < NUM_TOKENS guard, and trigger_rug and claim_winnings index
with a survivor produced by reduction modulo NUM_TOKENS, while
token_counts always has length NUM_TOKENS. -/
theorem c10_no_index_panic {w : World} (hr : Reach w) :
    (∀ p tok, errOf (enterGame w p tok) ≠ some .panicIndex) ∧
    (∀ c s t, errOf (triggerRug w c s t) ≠ some .panicIndex) ∧
    (∀ p, errOf (claimWinnings w p) ≠ some .panicIndex) := by
  have hinv := reach_inv hr
  have hlen := hinv.len
  refine ⟨?_, ?_, ?_⟩
  · intro p tok
    unfold enterGame
    dsimp only
    split
    · rw [errOf_error]; decide
    split
    · rw [errOf_error]; decide
    split
    · rw [errOf_error]; decide
    split
    · rw [errOf_error]; decide
    split
    · rw [errOf_error]; decide
    split
    · rw [errOf_error]; decide
    split
    · rw [errOf_error]; decide
    rename_i hdup htok hopen hbal h5 h6 h7
    split
    · rename_i hnone
      have hts : tok < w.game.token_counts.length := by rw [hlen]; omega
      rw [List.getElem?_eq_getElem hts] at hnone
      exact absurd hnone (by simp)
    · rename_i c hsome
      split
      · rw [errOf_error]; decide
      · rw [errOf_ok]; decide
  · intro c s t
    unfold triggerRug
    dsimp only
    split
    · rw [errOf_error]; decide
    split
    · rw [errOf_error]; decide
    split
    · rw [errOf_error]; decide
    split
    · rename_i hnone
      have hts : (s + toU64 t) % U64_MOD % NUM_TOKENS < w.game.token_counts.length := by
        rw [hlen]
        exact Nat.mod_lt _ (by norm_num [NUM_TOKENS])
      rw [List.getElem?_eq_getElem hts] at hnone
      exact absurd hnone (by simp)
    · rw [errOf_ok]; decide
  · intro p
    unfold claimWinnings
    split
    · rw [errOf_error]; decide
    · rename_i e hfind
      dsimp only
      split
      · rw [errOf_error]; decide
      · split
        · rw [errOf_error]; decide
        · split
          · rw [errOf_error]; decide
          · rename_i s hsurv
            split
            · rw [errOf_error]; decide
            · split
              · rename_i hnone
                have hsl : s < w.game.token_counts.length := by
                  rw [hlen]
                  exact hinv.surv_lt s hsurv
                rw [List.getElem?_eq_getElem hsl] at hnone
                exact absurd hnone (by simp)
              · split
                · rw [errOf_error]; decide
                · split
                  · rw [errOf_error]; decide
                  · split
                    · rw [errOf_error]; decide
                    · rw [errOf_ok]; decide

theorem c10_witness :
    errOf (enterGame EW3 5 3) ≠ some TxError.panicIndex ∧
    errOf (triggerRug EW3 7 4 11) ≠ some TxError.panicIndex ∧
    errOf (claimWinnings EW3 2) ≠ some TxError.panicIndex :=
  ⟨(c10_no_index_panic reach_EW3).1 5 3,
   (c10_no_index_panic reach_EW3).2.1 7 4 11,
   (c10_no_index_panic reach_EW3).2.2 2⟩

end RugRoulette
